import Mathlib

/-!
Shallow embedding of the procedural pipe-growth engine from `src/world.rs`.

Machine integers (`u32`) are modelled as `Nat` with explicit `% 2^32`
wrap-around where the source's arithmetic can overflow.  `f32` draws and
probabilities are modelled as `Rat` (the comparisons the code performs on
values in `[0,1)` are order comparisons, faithfully mirrored by `Rat`).
The process-wide random source is modelled by threading an explicit record
of pre-drawn values (`StepDraws`) into each growth step; `choose` on a
non-empty slice becomes indexing by `draw % length`, and
`rand::random_range(0..n)` becomes `draw % n` when `n ≠ 0` and a panic
(`Option.none` / `LoopOut.panicked`) when the range is empty, exactly as
`rand` panics on an empty range.  Rust panics are modelled as `none` /
`LoopOut.panicked`; the unbounded `loop` in `random_block` is modelled by
recursion on the finite list of available draws, `LoopOut.running` meaning
the loop has not terminated after consuming all of them.
-/

/-- Axis of rotation (`cgmath::Vector3::unit_x/y/z`). -/
inductive Axis3 where
  | x | y | z
deriving DecidableEq, Repr, Fintype

/-- Symbolic rotation value: `from_axis_angle(axis, Deg(deg))`, and `comp`
for quaternion multiplication `a * b`. -/
inductive Rot where
  | axisAngle (axis : Axis3) (deg : Rat)
  | comp (a b : Rot)
deriving DecidableEq, Repr

/-- Color, an `[f32; 3]` modelled as a rational triple. -/
abbrev Color := Rat × Rat × Rat

/-- Modelled from the spec: the `Instance` record (its defining module is
not under `src/`; the spec gives its shape as position, rotation, color,
and `world.rs` constructs it literally as such). -/
structure Instance where
  position : Rat × Rat × Rat
  rotation : Rot
  color : Color
deriving DecidableEq, Repr

/-- The `rgb!` macro: each channel divided by 256.0. -/
def rgb (r g b : Nat) : Color := (mkRat r 256, mkRat g 256, mkRat b 256)

/-- The `COLOR` palette from `world.rs`. -/
def COLOR : List Color :=
  [ rgb 116 222 215, rgb 255 0 0, rgb 247 104 31, rgb 75 151 160,
    rgb 254 211 86, rgb 250 231 231, rgb 132 123 14, rgb 251 155 72,
    rgb 14 169 30, rgb 158 235 189, rgb 2 143 146 ]

/-- Source `random_color`: `COLOR.choose(rng)`, the draw modelled as an index. -/
def random_color (draw : Nat) : Color := COLOR.getD (draw % COLOR.length) (0, 0, 0)

/-- Source `PipeType`: `I` is the straight pipe, `L` the elbow. -/
inductive PipeType where
  | I | L
deriving DecidableEq, Repr

/-- The six unit-axis directions; `_X` is `−X` and so on. -/
inductive Direction where
  | X | Y | Z | _X | _Y | _Z
deriving DecidableEq, Repr, Fintype

/-- Constant `ALL_DIRECTIONS`. -/
def ALL_DIRECTIONS : List Direction := [.X, .Y, .Z, ._X, ._Y, ._Z]

/-- Constant `PERPENDICULAR_X`. -/
def PERPENDICULAR_X : List Direction := [.Y, ._Y, .Z, ._Z]

/-- Constant `PERPENDICULAR_Y`. -/
def PERPENDICULAR_Y : List Direction := [.X, ._X, .Z, ._Z]

/-- Constant `PERPENDICULAR_Z`. -/
def PERPENDICULAR_Z : List Direction := [.Y, ._Y, .X, ._X]

/-- Axis of a direction (not in the source as a function; the source's
matches pair `X | _X` etc., which is exactly grouping by axis). -/
def Direction.axis : Direction → Axis3
  | .X | ._X => .x
  | .Y | ._Y => .y
  | .Z | ._Z => .z

/-- The opposite direction (used only to state perpendicularity claims). -/
def Direction.opposite : Direction → Direction
  | .X => ._X
  | ._X => .X
  | .Y => ._Y
  | ._Y => .Y
  | .Z => ._Z
  | ._Z => .Z

/-- Source `Direction::random`: `ALL_DIRECTIONS.choose(rng)`, draw as index. -/
def Direction.random (draw : Nat) : Direction :=
  ALL_DIRECTIONS.getD (draw % ALL_DIRECTIONS.length) .X

/-- Source `Direction::random_perpendicular`: choose from the perpendicular table
of the receiver's axis, draw as index. -/
def Direction.random_perpendicular (d : Direction) (draw : Nat) : Direction :=
  let options : List Direction :=
    match d with
    | .X | ._X => PERPENDICULAR_X
    | .Y | ._Y => PERPENDICULAR_Y
    | .Z | ._Z => PERPENDICULAR_Z
  options.getD (draw % options.length) .X

/-- Source `Block`: pipe type, outgoing direction, grid position (`u32` triple),
color. -/
structure Block where
  pipe_type : PipeType
  direction : Direction
  position : Nat × Nat × Nat
  color : Color
deriving DecidableEq, Repr

/-- The `World` state: bounds, probabilities, the two instance streams, the
occupancy set (a `HashSet` modelled as a `Finset`) and the last block. -/
structure World where
  max_x_block : Nat
  max_y_block : Nat
  max_z_block : Nat
  turn_probability : Rat
  stop_probability : Rat
  i_pipe_instances : List Instance
  l_pipe_instances : List Instance
  occupied_blocks : Finset (Nat × Nat × Nat)
  last_block : Option Block
deriving DecidableEq

def WORLD_X : Nat := 30

def WORLD_Y : Nat := 30

def WORLD_Z : Nat := 30

/-- Constant `TURN_PROBABILITY = 0.3`, modelled as the rational it denotes. -/
def TURN_PROBABILITY : Rat := mkRat 3 10

/-- Constant `STOP_PROBABILITY = 0.0`. -/
def STOP_PROBABILITY : Rat := 0

/-- Source `World::new`. -/
def World.new : World :=
  { max_x_block := WORLD_X
    max_y_block := WORLD_Y
    max_z_block := WORLD_Z
    turn_probability := TURN_PROBABILITY
    stop_probability := STOP_PROBABILITY
    i_pipe_instances := []
    l_pipe_instances := []
    occupied_blocks := ∅
    last_block := none }

/-- One growth step's pre-drawn random values (explicit random source). -/
structure StepDraws where
  stop_draw : Rat
  turn_draw : Rat
  spawn_draws : List (Nat × Nat × Nat)
  dir_draw : Nat
  perp_draw : Nat
  color_draw : Nat

/-- Outcome of code containing the resample `loop`: `ok` is a normal
return, `panicked` a Rust panic, `running` means the loop has not
terminated after consuming every available draw. -/
inductive LoopOut (α : Type) where
  | ok (a : α)
  | panicked
  | running
deriving DecidableEq, Repr

/-- Modelled `rand::random_range(0..n)` with raw entropy `d`: panics (`none`) on an
empty range, otherwise yields a value `< n`. -/
def sampleRange (n d : Nat) : Option Nat :=
  if n = 0 then none else some (d % n)

/-- The wrap-around modulus of `u32` arithmetic. -/
def U32MOD : Nat := 2 ^ 32

/-- Wrapping `u32` addition of 1 (`pos + 1`), wrapping mod `2^32`. -/
def wadd1 (x : Nat) : Nat := (x + 1) % U32MOD

/-- Wrapping `u32` subtraction of 1 (`pos - 1`), wrapping mod `2^32`. -/
def wsub1 (x : Nat) : Nat := (x + U32MOD - 1) % U32MOD

/-- The position-sampling `loop` inside `World::random_block`: draw a
position in the half-bound spawn region, retry while it is occupied. -/
def World.random_block_pos (w : World) : List (Nat × Nat × Nat) → LoopOut (Nat × Nat × Nat)
  | [] => .running
  | d :: rest =>
    match sampleRange (w.max_x_block / 2) d.1,
          sampleRange (w.max_y_block / 2) d.2.1,
          sampleRange (w.max_z_block / 2) d.2.2 with
    | some x, some y, some z =>
      if (x, y, z) ∈ w.occupied_blocks then w.random_block_pos rest else .ok (x, y, z)
    | _, _, _ => .panicked

/-- Source `World::random_block`: fresh-start block — always pipe type `I`,
random direction, freshly drawn color. -/
def World.random_block (w : World) (d : StepDraws) : LoopOut Block :=
  match w.random_block_pos d.spawn_draws with
  | .ok position =>
    .ok { pipe_type := .I
          direction := Direction.random d.dir_draw
          color := random_color d.color_draw
          position := position }
  | .panicked => .panicked
  | .running => .running

/-- Source `World::is_position_valid`: the coordinate test uses `>` against each
bound (so equality with the bound passes), plus an occupancy test. -/
def World.is_position_valid (w : World) (position : Nat × Nat × Nat) : Bool :=
  if position.1 > w.max_x_block
      || position.2.1 > w.max_y_block
      || position.2.2 > w.max_z_block
      || decide (position ∈ w.occupied_blocks)
  then false
  else true

/-- The candidate-position computation in `World::next_block`: advance the
last block's position one unit along its direction, in `u32` arithmetic. -/
def candidate_position (b : Block) : Nat × Nat × Nat :=
  match b.direction with
  | .X => (wadd1 b.position.1, b.position.2.1, b.position.2.2)
  | .Y => (b.position.1, wadd1 b.position.2.1, b.position.2.2)
  | .Z => (b.position.1, b.position.2.1, wadd1 b.position.2.2)
  | ._X => (wsub1 b.position.1, b.position.2.1, b.position.2.2)
  | ._Y => (b.position.1, wsub1 b.position.2.1, b.position.2.2)
  | ._Z => (b.position.1, b.position.2.1, wsub1 b.position.2.2)

/-- Source `World::next_block`: continue along the last direction; if the
candidate is invalid fall back to `random_block`; otherwise turn with
probability `turn_probability`, else go straight. The `unwrap` of
`last_block` is a panic when `none`. -/
def World.next_block (w : World) (d : StepDraws) : LoopOut Block :=
  match w.last_block with
  | none => .panicked
  | some last_block =>
    let color := last_block.color
    let position := candidate_position last_block
    if ¬ w.is_position_valid position then
      w.random_block d
    else if d.turn_draw < w.turn_probability then
      .ok { color := color
            position := position
            direction := last_block.direction.random_perpendicular d.perp_draw
            pipe_type := .L }
    else
      .ok { color := color
            position := position
            direction := last_block.direction
            pipe_type := .I }

/-- Source `World::i_instance_at_block`: straight-pipe orientation, a function of
the block's direction grouped by axis. -/
def World.i_instance_at_block (block : Block) : Instance :=
  let p := block.position
  let position : Rat × Rat × Rat := ((p.1 : Rat), (p.2.1 : Rat), (p.2.2 : Rat))
  let rotation : Rot :=
    match block.direction with
    | .Y | ._Y => .axisAngle .y 0
    | .X | ._X => .axisAngle .z (-90)
    | .Z | ._Z => .axisAngle .x 90
  { position := position, rotation := rotation, color := block.color }

/-- The rotation table of `World::l_instance_at_block`, keyed by the
block's (outgoing) direction and the last block's (incoming) direction;
`panic!("Invalid direction")` is `none`. -/
def l_rot (outgoing incoming : Direction) : Option Rot :=
  match outgoing with
  | .X =>
    (match incoming with
      | ._Y => some (0 : Rat) | ._Z => some 90 | .Y => some 180 | .Z => some (-90)
      | _ => none).map fun deg => .axisAngle .x deg
  | ._X =>
    (match incoming with
      | ._Y => some (0 : Rat) | ._Z => some 90 | .Y => some 180 | .Z => some (-90)
      | _ => none).map fun deg => .comp (.axisAngle .x deg) (.axisAngle .z 90)
  | .Y =>
    (match incoming with
      | ._X => some (0 : Rat) | ._Z => some (-90) | .X => some 180 | .Z => some 90
      | _ => none).map fun deg => .axisAngle .y deg
  | ._Y =>
    (match incoming with
      | ._X => some (0 : Rat) | ._Z => some (-90) | .X => some 180 | .Z => some 90
      | _ => none).map fun deg => .comp (.axisAngle .y deg) (.axisAngle .x 180)
  | .Z =>
    (match incoming with
      | ._X => some (0 : Rat) | ._Y => some 90 | .X => some 180 | .Y => some (-90)
      | _ => none).map fun deg => .comp (.axisAngle .z deg) (.axisAngle .x 90)
  | ._Z =>
    (match incoming with
      | ._X => some (0 : Rat) | ._Y => some 90 | .X => some 180 | .Y => some (-90)
      | _ => none).map fun deg => .comp (.axisAngle .z deg) (.axisAngle .x (-90))

/-- Source `World::l_instance_at_block`: elbow orientation from the (incoming,
outgoing) pair; the `unwrap` of `last_block` and the `panic!` on a
non-perpendicular pair are `none`. -/
def World.l_instance_at_block (w : World) (block : Block) : Option Instance :=
  match w.last_block with
  | none => none
  | some last_block =>
    let p := block.position
    let position : Rat × Rat × Rat := ((p.1 : Rat), (p.2.1 : Rat), (p.2.2 : Rat))
    (l_rot block.direction last_block.direction).map fun rotation =>
      { position := position, rotation := rotation, color := block.color }

/-- Source `World::add_pipe`: one growth step. -/
def World.add_pipe (w : World) (d : StepDraws) : LoopOut World :=
  let blockRes : LoopOut Block :=
    if d.stop_draw < w.stop_probability ∨ w.last_block.isNone then
      w.random_block d
    else
      w.next_block d
  match blockRes with
  | .ok block =>
    match block.pipe_type with
    | .I =>
      .ok { w with
            i_pipe_instances := w.i_pipe_instances ++ [World.i_instance_at_block block]
            occupied_blocks := insert block.position w.occupied_blocks
            last_block := some block }
    | .L =>
      match w.l_instance_at_block block with
      | none => .panicked
      | some inst =>
        .ok { w with
              l_pipe_instances := w.l_pipe_instances ++ [inst]
              occupied_blocks := insert block.position w.occupied_blocks
              last_block := some block }
  | .panicked => .panicked
  | .running => .running

/-- Source `World::add_debug_pipe`: build the block from the explicit arguments
and perform the same placement bookkeeping, with no random decisions. -/
def World.add_debug_pipe (w : World) (pipe_type : PipeType)
    (position : Nat × Nat × Nat) (direction : Direction) (color : Color) : Option World :=
  let block : Block :=
    { pipe_type := pipe_type, direction := direction, position := position, color := color }
  match block.pipe_type with
  | .I =>
    some { w with
           i_pipe_instances := w.i_pipe_instances ++ [World.i_instance_at_block block]
           occupied_blocks := insert block.position w.occupied_blocks
           last_block := some block }
  | .L =>
    (w.l_instance_at_block block).map fun inst =>
      { w with
        l_pipe_instances := w.l_pipe_instances ++ [inst]
        occupied_blocks := insert block.position w.occupied_blocks
        last_block := some block }

/-- Repeated growth: call `add_pipe` once per draw record, stopping at the
first panic or non-terminating resample loop. -/
def World.run (w : World) : List StepDraws → LoopOut World
  | [] => .ok w
  | d :: ds =>
    match w.add_pipe d with
    | .ok w' => w'.run ds
    | .panicked => .panicked
    | .running => .running

/-! ## Helper lemmas -/

lemma is_position_valid_iff (w : World) (p : Nat × Nat × Nat) :
    w.is_position_valid p = true ↔
      p.1 ≤ w.max_x_block ∧ p.2.1 ≤ w.max_y_block ∧ p.2.2 ≤ w.max_z_block ∧
      p ∉ w.occupied_blocks := by
  unfold World.is_position_valid
  split
  · rename_i h
    simp only [Bool.or_eq_true, decide_eq_true_eq, gt_iff_lt] at h
    simp only [Bool.false_eq_true, false_iff, not_and, not_not]
    intro h1 h2 h3
    rcases h with ((hx | hy) | hz) | hm
    · exact absurd h1 (by omega)
    · exact absurd h2 (by omega)
    · exact absurd h3 (by omega)
    · exact hm
  · rename_i h
    simp only [Bool.or_eq_true, decide_eq_true_eq, gt_iff_lt, not_or] at h
    simp only [true_iff]
    obtain ⟨⟨⟨hx, hy⟩, hz⟩, hm⟩ := h
    exact ⟨by omega, by omega, by omega, hm⟩

lemma random_block_pos_ok (w : World) :
    ∀ (ds : List (Nat × Nat × Nat)) (p : Nat × Nat × Nat),
      w.random_block_pos ds = .ok p →
      p ∉ w.occupied_blocks ∧
      p.1 < w.max_x_block / 2 ∧ p.2.1 < w.max_y_block / 2 ∧ p.2.2 < w.max_z_block / 2 := by
  intro ds
  induction ds with
  | nil =>
    intro p h
    simp [World.random_block_pos] at h
  | cons d rest ih =>
    intro p h
    by_cases hx : w.max_x_block / 2 = 0
    · simp [World.random_block_pos, sampleRange, hx] at h
    by_cases hy : w.max_y_block / 2 = 0
    · simp [World.random_block_pos, sampleRange, hx, hy] at h
    by_cases hz : w.max_z_block / 2 = 0
    · simp [World.random_block_pos, sampleRange, hx, hy, hz] at h
    simp only [World.random_block_pos, sampleRange, hx, hy, hz, if_neg, ite_false] at h
    by_cases hm : (d.1 % (w.max_x_block / 2), d.2.1 % (w.max_y_block / 2),
        d.2.2 % (w.max_z_block / 2)) ∈ w.occupied_blocks
    · rw [if_pos hm] at h
      exact ih p h
    · rw [if_neg hm] at h
      cases h
      exact ⟨hm, Nat.mod_lt _ (Nat.pos_of_ne_zero hx), Nat.mod_lt _ (Nat.pos_of_ne_zero hy),
        Nat.mod_lt _ (Nat.pos_of_ne_zero hz)⟩

lemma random_block_ok {w : World} {d : StepDraws} {b : Block}
    (h : w.random_block d = .ok b) :
    b.position ∉ w.occupied_blocks ∧
    b.position.1 < w.max_x_block / 2 ∧ b.position.2.1 < w.max_y_block / 2 ∧
    b.position.2.2 < w.max_z_block / 2 ∧
    b.pipe_type = .I ∧ b.direction = Direction.random d.dir_draw ∧
    b.color = random_color d.color_draw := by
  unfold World.random_block at h
  cases hrb : w.random_block_pos d.spawn_draws <;> rw [hrb] at h <;> cases h
  rename_i p
  have := random_block_pos_ok w d.spawn_draws p hrb
  exact ⟨this.1, this.2.1, this.2.2.1, this.2.2.2, rfl, rfl, rfl⟩

lemma next_block_ok {w : World} {d : StepDraws} {b : Block}
    (h : w.next_block d = .ok b) :
    ∃ lb, w.last_block = some lb ∧
      ((w.is_position_valid (candidate_position lb) = false ∧ w.random_block d = .ok b) ∨
       (w.is_position_valid (candidate_position lb) = true ∧
        b.position = candidate_position lb ∧ b.color = lb.color ∧
        ((d.turn_draw < w.turn_probability ∧
            b.direction = lb.direction.random_perpendicular d.perp_draw ∧
            b.pipe_type = .L) ∨
         (¬ d.turn_draw < w.turn_probability ∧
            b.direction = lb.direction ∧ b.pipe_type = .I)))) := by
  unfold World.next_block at h
  cases hl : w.last_block <;> rw [hl] at h
  · cases h
  rename_i lb
  refine ⟨lb, rfl, ?_⟩
  simp only at h
  by_cases hv : w.is_position_valid (candidate_position lb) = true
  · rw [if_neg (by simp [hv])] at h
    right
    by_cases ht : d.turn_draw < w.turn_probability
    · rw [if_pos ht] at h
      cases h
      exact ⟨hv, rfl, rfl, Or.inl ⟨ht, rfl, rfl⟩⟩
    · rw [if_neg ht] at h
      cases h
      exact ⟨hv, rfl, rfl, Or.inr ⟨ht, rfl, rfl⟩⟩
  · rw [if_pos (by simp [hv])] at h
    exact Or.inl ⟨by simpa using hv, h⟩

lemma add_pipe_ok {w : World} {d : StepDraws} {w' : World}
    (h : w.add_pipe d = .ok w') :
    ∃ b : Block,
      ((d.stop_draw < w.stop_probability ∨ w.last_block = none) ∧ w.random_block d = .ok b ∨
       ¬ (d.stop_draw < w.stop_probability ∨ w.last_block = none) ∧ w.next_block d = .ok b) ∧
      w'.last_block = some b ∧
      w'.occupied_blocks = insert b.position w.occupied_blocks ∧
      w'.max_x_block = w.max_x_block ∧ w'.max_y_block = w.max_y_block ∧
      w'.max_z_block = w.max_z_block ∧
      w'.turn_probability = w.turn_probability ∧
      w'.stop_probability = w.stop_probability ∧
      (b.pipe_type = .I →
        w'.i_pipe_instances = w.i_pipe_instances ++ [World.i_instance_at_block b] ∧
        w'.l_pipe_instances = w.l_pipe_instances) ∧
      (b.pipe_type = .L →
        (∃ inst, w.l_instance_at_block b = some inst ∧
          w'.l_pipe_instances = w.l_pipe_instances ++ [inst]) ∧
        w'.i_pipe_instances = w.i_pipe_instances) := by
  unfold World.add_pipe at h
  by_cases hc : d.stop_draw < w.stop_probability ∨ w.last_block.isNone = true
  · rw [if_pos hc] at h
    have hc2 : d.stop_draw < w.stop_probability ∨ w.last_block = none := by
      rcases hc with hc | hc
      · exact Or.inl hc
      · exact Or.inr (Option.isNone_iff_eq_none.mp hc)
    cases hrb : w.random_block d
    rotate_left
    · rw [hrb] at h; dsimp only at h; cases h
    · rw [hrb] at h; dsimp only at h; cases h
    rename_i b
    rw [hrb] at h
    dsimp only at h
    have hbI : b.pipe_type = .I := (random_block_ok hrb).2.2.2.2.1
    rw [hbI] at h
    dsimp only at h
    cases h
    exact ⟨b, Or.inl ⟨hc2, rfl⟩, rfl, rfl, rfl, rfl, rfl, rfl, rfl,
      fun _ => ⟨rfl, rfl⟩, fun hL => by rw [hbI] at hL; cases hL⟩
  · rw [if_neg hc] at h
    have hc2 : ¬ (d.stop_draw < w.stop_probability ∨ w.last_block = none) := by
      intro hcon
      apply hc
      rcases hcon with hcon | hcon
      · exact Or.inl hcon
      · exact Or.inr (Option.isNone_iff_eq_none.mpr hcon)
    cases hnb : w.next_block d
    rotate_left
    · rw [hnb] at h; dsimp only at h; cases h
    · rw [hnb] at h; dsimp only at h; cases h
    rename_i b
    rw [hnb] at h
    dsimp only at h
    cases hbt : b.pipe_type
    · rw [hbt] at h
      dsimp only at h
      cases h
      exact ⟨b, Or.inr ⟨hc2, rfl⟩, rfl, rfl, rfl, rfl, rfl, rfl, rfl,
        fun _ => ⟨rfl, rfl⟩, fun hL => by rw [hbt] at hL; cases hL⟩
    · rw [hbt] at h
      dsimp only at h
      cases hli : w.l_instance_at_block b
      · rw [hli] at h; cases h
      rename_i inst
      rw [hli] at h
      dsimp only at h
      cases h
      refine ⟨b, Or.inr ⟨hc2, rfl⟩, rfl, rfl, rfl, rfl, rfl, rfl, rfl, ?_, ?_⟩
      · intro hI
        rw [hbt] at hI
        cases hI
      · intro hL
        exact ⟨⟨inst, hli, rfl⟩, rfl⟩

lemma add_pipe_ok_fresh_pos {w : World} {d : StepDraws} {b : Block}
    (h : (d.stop_draw < w.stop_probability ∨ w.last_block = none) ∧ w.random_block d = .ok b ∨
      ¬ (d.stop_draw < w.stop_probability ∨ w.last_block = none) ∧ w.next_block d = .ok b) :
    b.position ∉ w.occupied_blocks := by
  rcases h with ⟨-, hrb⟩ | ⟨-, hnb⟩
  · exact (random_block_ok hrb).1
  · obtain ⟨lb, -, hcase⟩ := next_block_ok hnb
    rcases hcase with ⟨-, hrb⟩ | ⟨hvalid, hpos, -⟩
    · exact (random_block_ok hrb).1
    · rw [hpos]
      exact ((is_position_valid_iff w _).mp hvalid).2.2.2

lemma add_pipe_card {w : World} {d : StepDraws} {w' : World}
    (h : w.add_pipe d = .ok w') :
    w'.occupied_blocks.card = w.occupied_blocks.card + 1 := by
  obtain ⟨b, hsrc, -, hocc, -⟩ := add_pipe_ok h
  rw [hocc, Finset.card_insert_of_not_mem (add_pipe_ok_fresh_pos hsrc)]

lemma run_card :
    ∀ (ds : List StepDraws) (w w' : World), w.run ds = .ok w' →
      w'.occupied_blocks.card = w.occupied_blocks.card + ds.length := by
  intro ds
  induction ds with
  | nil =>
    intro w w' h
    unfold World.run at h
    cases h
    rfl
  | cons d rest ih =>
    intro w w' h
    unfold World.run at h
    cases hstep : w.add_pipe d <;> rw [hstep] at h
    rotate_left
    · cases h
    · cases h
    rename_i w1
    have := ih w1 w' h
    rw [this, add_pipe_card hstep]
    simp [List.length_cons]
    omega

/-- C3: starting from a fresh `World::new`, every sequence of `N`
successful `add_pipe` growth steps leaves the occupancy set with exactly
`N` distinct members — no grid position is ever placed twice. -/
theorem C3_no_collision (ds : List StepDraws) (w' : World)
    (h : World.new.run ds = .ok w') :
    w'.occupied_blocks.card = ds.length := by
  have := run_card ds World.new w' h
  simpa [World.new] using this

def c3_draws : List StepDraws :=
  [{ stop_draw := mkRat 1 2, turn_draw := mkRat 1 2, spawn_draws := [(0, 0, 0)],
     dir_draw := 0, perp_draw := 0, color_draw := 0 }]

def c3_world : World :=
  { max_x_block := 30, max_y_block := 30, max_z_block := 30
    turn_probability := mkRat 3 10, stop_probability := 0
    i_pipe_instances := [{ position := (0, 0, 0), rotation := Rot.axisAngle .z (-90),
                           color := (mkRat 116 256, mkRat 222 256, mkRat 215 256) }]
    l_pipe_instances := []
    occupied_blocks := {(0, 0, 0)}
    last_block := some { pipe_type := .I, direction := .X, position := (0, 0, 0),
                         color := (mkRat 116 256, mkRat 222 256, mkRat 215 256) } }

/-- Witness for C3 at a concrete one-step draw script. -/
theorem C3_no_collision_witness :
    World.new.run c3_draws = .ok c3_world ∧ c3_world.occupied_blocks.card = c3_draws.length :=
  ⟨by decide, C3_no_collision c3_draws c3_world (by decide)⟩

lemma random_perpendicular_spec (dir : Direction) (n : Nat) :
    (dir.random_perpendicular n).axis ≠ dir.axis ∧
    dir.random_perpendicular n ≠ dir ∧
    dir.random_perpendicular n ≠ dir.opposite := by
  have h4 : n % 4 = 0 ∨ n % 4 = 1 ∨ n % 4 = 2 ∨ n % 4 = 3 := by omega
  cases dir <;> rcases h4 with h | h | h | h <;>
    simp [Direction.random_perpendicular, PERPENDICULAR_X, PERPENDICULAR_Y, PERPENDICULAR_Z,
      h, Direction.axis, Direction.opposite]

/-- C4: whenever `next_block` produces a Turn step (an `L` block), the new
block's outgoing direction is perpendicular to the previous block's
direction — never equal and never opposite — whatever the random draw. -/
theorem C4_turn_perpendicular (w : World) (d : StepDraws) (b lb : Block)
    (hlb : w.last_block = some lb) (h : w.next_block d = .ok b)
    (hL : b.pipe_type = .L) :
    b.direction.axis ≠ lb.direction.axis ∧
    b.direction ≠ lb.direction ∧
    b.direction ≠ lb.direction.opposite := by
  obtain ⟨lb', hlb', hcase⟩ := next_block_ok h
  rw [hlb] at hlb'
  cases hlb'
  rcases hcase with ⟨-, hrb⟩ | ⟨-, -, -, ⟨-, hdir, -⟩ | ⟨-, -, hI⟩⟩
  · have := (random_block_ok hrb).2.2.2.2.1
    rw [hL] at this
    cases this
  · rw [hdir]
    exact random_perpendicular_spec lb.direction d.perp_draw
  · rw [hI] at hL
    cases hL

def c4_last : Block :=
  { pipe_type := .I, direction := .X, position := (5, 5, 5), color := (1, 0, 0) }

def c4_world : World := { World.new with last_block := some c4_last }

def c4_draws : StepDraws :=
  { stop_draw := mkRat 1 2, turn_draw := 0, spawn_draws := [],
    dir_draw := 0, perp_draw := 0, color_draw := 0 }

def c4_block : Block :=
  { pipe_type := .L, direction := .Y, position := (6, 5, 5), color := (1, 0, 0) }

/-- Witness for C4 at a concrete Turn step. -/
theorem C4_turn_perpendicular_witness :
    c4_block.direction.axis ≠ c4_last.direction.axis ∧
    c4_block.direction ≠ c4_last.direction ∧
    c4_block.direction ≠ c4_last.direction.opposite :=
  C4_turn_perpendicular c4_world c4_draws c4_block c4_last rfl (by decide) rfl

/-- C5: a Continue step — previous block present, candidate position
valid, turn draw not below `turn_probability` — produces a block whose
direction equals the predecessor's direction and whose pipe type is the
straight `I`, at the candidate position, with the inherited color. -/
theorem C5_continue_straight (w : World) (d : StepDraws) (lb : Block)
    (hlb : w.last_block = some lb)
    (hvalid : w.is_position_valid (candidate_position lb) = true)
    (hturn : ¬ d.turn_draw < w.turn_probability) :
    w.next_block d =
      .ok { pipe_type := .I, direction := lb.direction,
            position := candidate_position lb, color := lb.color } := by
  unfold World.next_block
  rw [hlb]
  dsimp only
  rw [if_neg (by simp [hvalid]), if_neg hturn]

def c5_draws : StepDraws :=
  { stop_draw := mkRat 1 2, turn_draw := mkRat 1 2, spawn_draws := [],
    dir_draw := 0, perp_draw := 0, color_draw := 0 }

/-- Witness for C5 at a concrete Continue step. -/
theorem C5_continue_straight_witness :
    c4_world.next_block c5_draws =
      .ok { pipe_type := .I, direction := c4_last.direction,
            position := candidate_position c4_last, color := c4_last.color } :=
  C5_continue_straight c4_world c5_draws c4_last rfl (by decide) (by decide)

def c1_world_1x1x1 : World :=
  { World.new with
    max_x_block := 1
    max_y_block := 1
    max_z_block := 1
    occupied_blocks := {(0, 0, 0)} }

def c1_world_2x2x2 : World :=
  { World.new with
    max_x_block := 2
    max_y_block := 2
    max_z_block := 2
    occupied_blocks := {(0, 0, 0)} }

def c1_draws : StepDraws :=
  { stop_draw := mkRat 1 2, turn_draw := mkRat 1 2, spawn_draws := [(0, 0, 0)],
    dir_draw := 0, perp_draw := 0, color_draw := 0 }

/-- C1 counterexample: on a 1×1×1 world whose single cell is occupied, the
growth step does not signal any recoverable grid-saturation condition — the
spawn sampling panics on the empty half-bound range `0..(1/2)` (the model's
outcome type has no saturation signal at all: only `ok`, `panicked`, and
`running`). -/
theorem C1_counterexample :
    c1_world_1x1x1.add_pipe c1_draws = LoopOut.panicked := by decide

/-- C1 (amended): the fresh-start resample loop is unbounded and the code
has no `GridSaturated` error path. On the 1×1×1 occupied world every
invocation with at least one sampling draw panics on the empty spawn
range, and on a 2×2×2 world whose only spawn cell `(0,0,0)` is occupied
the loop never terminates — after consuming any finite number of draws it
is still running. -/
theorem C1_unbounded_resample :
    (∀ (d : Nat × Nat × Nat) (ds : List (Nat × Nat × Nat)),
       c1_world_1x1x1.random_block_pos (d :: ds) = LoopOut.panicked) ∧
    (∀ ds : List (Nat × Nat × Nat),
       c1_world_2x2x2.random_block_pos ds = LoopOut.running) := by
  constructor
  · intro d ds
    simp [World.random_block_pos, sampleRange, c1_world_1x1x1, World.new]
  · intro ds
    induction ds with
    | nil => rfl
    | cons d rest ih =>
      simpa [World.random_block_pos, sampleRange, Nat.mod_one, c1_world_2x2x2, World.new] using ih

def c2_fresh_draw : StepDraws :=
  { stop_draw := mkRat 1 2, turn_draw := mkRat 1 2, spawn_draws := [(14, 0, 0)],
    dir_draw := 0, perp_draw := 0, color_draw := 0 }

def c2_cont_draw : StepDraws :=
  { stop_draw := mkRat 1 2, turn_draw := mkRat 1 2, spawn_draws := [],
    dir_draw := 0, perp_draw := 0, color_draw := 0 }

def c2_script : List StepDraws := c2_fresh_draw :: List.replicate 16 c2_cont_draw

/-- Occupancy set at the end of a successful run (empty if the run did not
finish normally). -/
def run_occupied (w : World) (ds : List StepDraws) : Finset (Nat × Nat × Nat) :=
  match w.run ds with
  | .ok w' => w'.occupied_blocks
  | _ => ∅

/-- C2 counterexample: a growth run from `World::new` (bounds 30×30×30) —
a fresh start at `(14,0,0)` heading `+X` followed by 16 straight
continuations — places a segment at `(30,0,0)`, whose x-coordinate is not
strictly less than the bound: the validity check rejects only coordinates
strictly greater than the bound. -/
theorem C2_counterexample :
    (30, 0, 0) ∈ run_occupied World.new c2_script ∧
    ¬ ((30 : Nat) < World.new.max_x_block) := by decide

/-- C2 (amended): every block placed by a successful growth step has each
coordinate less than or equal to the configured bound on its axis (the
validity check rejects only coordinates strictly greater than the bound,
so a coordinate equal to the bound is placeable), and a block placed via
the fresh-start path additionally lies in the reduced spawn sub-range,
strictly below half the bound on each axis. -/
theorem C2_bounds (w : World) (d : StepDraws) (w' : World)
    (h : w.add_pipe d = .ok w') :
    ∃ b, w'.last_block = some b ∧
      b.position.1 ≤ w.max_x_block ∧
      b.position.2.1 ≤ w.max_y_block ∧
      b.position.2.2 ≤ w.max_z_block ∧
      ((d.stop_draw < w.stop_probability ∨ w.last_block = none ∨
        (∃ lb, w.last_block = some lb ∧
          w.is_position_valid (candidate_position lb) = false)) →
        b.position.1 < w.max_x_block / 2 ∧
        b.position.2.1 < w.max_y_block / 2 ∧
        b.position.2.2 < w.max_z_block / 2) := by
  obtain ⟨b, hsrc, hlast, -⟩ := add_pipe_ok h
  refine ⟨b, hlast, ?_⟩
  rcases hsrc with ⟨-, hrb⟩ | ⟨hc, hnb⟩
  · obtain ⟨-, hx, hy, hz, -⟩ := random_block_ok hrb
    exact ⟨Nat.le_of_lt (Nat.lt_of_lt_of_le hx (Nat.div_le_self _ _)),
      Nat.le_of_lt (Nat.lt_of_lt_of_le hy (Nat.div_le_self _ _)),
      Nat.le_of_lt (Nat.lt_of_lt_of_le hz (Nat.div_le_self _ _)),
      fun _ => ⟨hx, hy, hz⟩⟩
  · obtain ⟨lb, hlb, hcase⟩ := next_block_ok hnb
    rcases hcase with ⟨hinvalid, hrb⟩ | ⟨hvalid, hpos, -⟩
    · obtain ⟨-, hx, hy, hz, -⟩ := random_block_ok hrb
      exact ⟨Nat.le_of_lt (Nat.lt_of_lt_of_le hx (Nat.div_le_self _ _)),
        Nat.le_of_lt (Nat.lt_of_lt_of_le hy (Nat.div_le_self _ _)),
        Nat.le_of_lt (Nat.lt_of_lt_of_le hz (Nat.div_le_self _ _)),
        fun _ => ⟨hx, hy, hz⟩⟩
    · obtain ⟨hx, hy, hz, -⟩ := (is_position_valid_iff w _).mp hvalid
      rw [hpos]
      refine ⟨hx, hy, hz, ?_⟩
      intro hfresh
      exfalso
      rcases hfresh with hstop | hnone | ⟨lb', hlb', hinv⟩
      · exact hc (Or.inl hstop)
      · rw [hnone] at hlb; cases hlb
      · rw [hlb] at hlb'
        cases hlb'
        rw [hvalid] at hinv
        cases hinv

/-- Witness for C2's amended bounds statement at a concrete fresh step. -/
theorem C2_bounds_witness :
    ∃ b, c3_world.last_block = some b ∧
      b.position.1 ≤ World.new.max_x_block ∧
      b.position.2.1 ≤ World.new.max_y_block ∧
      b.position.2.2 ≤ World.new.max_z_block ∧
      ((mkRat 1 2 < World.new.stop_probability ∨ World.new.last_block = none ∨
        (∃ lb, World.new.last_block = some lb ∧
          World.new.is_position_valid (candidate_position lb) = false)) →
        b.position.1 < World.new.max_x_block / 2 ∧
        b.position.2.1 < World.new.max_y_block / 2 ∧
        b.position.2.2 < World.new.max_z_block / 2) := by
  have h : World.new.add_pipe (c3_draws.headD c2_cont_draw) = .ok c3_world := by decide
  simpa using C2_bounds World.new (c3_draws.headD c2_cont_draw) c3_world h

/-- A growth step that stays in the current run: the stop draw does not
trigger a restart, a previous block exists, and its candidate position is
valid — i.e. the step is a Continue or a Turn, not a FreshStart or a
BlockedRestart. -/
def stepIsRun (w : World) (d : StepDraws) : Prop :=
  ¬ d.stop_draw < w.stop_probability ∧
  ∃ b, w.last_block = some b ∧ w.is_position_valid (candidate_position b) = true

/-- Every step of the draw list continues the current run. -/
def allRunSteps : World → List StepDraws → Prop
  | _, [] => True
  | w, d :: ds => stepIsRun w d ∧ ∀ w', w.add_pipe d = .ok w' → allRunSteps w' ds

lemma l_instance_color {w : World} {b : Block} {inst : Instance}
    (h : w.l_instance_at_block b = some inst) : inst.color = b.color := by
  unfold World.l_instance_at_block at h
  cases hlb : w.last_block <;> rw [hlb] at h
  · cases h
  · dsimp only at h
    rw [Option.map_eq_some'] at h
    obtain ⟨r, -, heq⟩ := h
    rw [← heq]

lemma add_pipe_run_step {w : World} {d : StepDraws} {w' : World} {lb : Block}
    (hlb : w.last_block = some lb) (hrun : stepIsRun w d)
    (h : w.add_pipe d = .ok w') :
    (∃ b', w'.last_block = some b' ∧ b'.color = lb.color) ∧
    (∀ inst ∈ w'.i_pipe_instances,
      inst ∈ w.i_pipe_instances ∨ inst.color = lb.color) ∧
    (∀ inst ∈ w'.l_pipe_instances,
      inst ∈ w.l_pipe_instances ∨ inst.color = lb.color) := by
  obtain ⟨hstop, b0, hb0, hvalid⟩ := hrun
  rw [hlb] at hb0
  cases hb0
  obtain ⟨b, hsrc, hlast, -, -, -, -, -, -, hI, hL⟩ := add_pipe_ok h
  rcases hsrc with ⟨hc, -⟩ | ⟨-, hnb⟩
  · exfalso
    rcases hc with hc | hc
    · exact hstop hc
    · rw [hc] at hlb; cases hlb
  · obtain ⟨lb', hlb', hcase⟩ := next_block_ok hnb
    rw [hlb] at hlb'
    cases hlb'
    rcases hcase with ⟨hinv, -⟩ | ⟨-, -, hcolor, hdir⟩
    · rw [hvalid] at hinv; cases hinv
    have hbc : b.color = lb.color := hcolor
    refine ⟨⟨b, hlast, hbc⟩, ?_, ?_⟩
    · intro inst hinst
      cases hbt : b.pipe_type
      · obtain ⟨hieq, -⟩ := hI hbt
        rw [hieq] at hinst
        rcases List.mem_append.mp hinst with hold | hnew
        · exact Or.inl hold
        · have : inst = World.i_instance_at_block b := List.mem_singleton.mp hnew
          subst this
          exact Or.inr (by simp [World.i_instance_at_block, hbc])
      · obtain ⟨-, hieq⟩ := hL hbt
        rw [hieq] at hinst
        exact Or.inl hinst
    · intro inst hinst
      cases hbt : b.pipe_type
      · obtain ⟨-, hleq⟩ := hI hbt
        rw [hleq] at hinst
        exact Or.inl hinst
      · obtain ⟨⟨inst0, hli, hleq⟩, -⟩ := hL hbt
        rw [hleq] at hinst
        rcases List.mem_append.mp hinst with hold | hnew
        · exact Or.inl hold
        · have : inst = inst0 := List.mem_singleton.mp hnew
          subst this
          right
          rw [l_instance_color hli]
          exact hbc

lemma run_color :
    ∀ (ds : List StepDraws) (w w' : World) (lb : Block),
      w.last_block = some lb → allRunSteps w ds → w.run ds = .ok w' →
      (∃ b', w'.last_block = some b' ∧ b'.color = lb.color) ∧
      (∀ inst ∈ w'.i_pipe_instances,
        inst ∈ w.i_pipe_instances ∨ inst.color = lb.color) ∧
      (∀ inst ∈ w'.l_pipe_instances,
        inst ∈ w.l_pipe_instances ∨ inst.color = lb.color) := by
  intro ds
  induction ds with
  | nil =>
    intro w w' lb hlb _ hrun
    unfold World.run at hrun
    cases hrun
    exact ⟨⟨lb, hlb, rfl⟩, fun inst h => Or.inl h, fun inst h => Or.inl h⟩
  | cons d rest ih =>
    intro w w' lb hlb hall hrun
    obtain ⟨hstep1, hrest⟩ := hall
    unfold World.run at hrun
    cases hstep : w.add_pipe d <;> rw [hstep] at hrun
    rotate_left
    · cases hrun
    · cases hrun
    rename_i w1
    obtain ⟨⟨b', hb', hbc⟩, hIstep, hLstep⟩ := add_pipe_run_step hlb hstep1 hstep
    obtain ⟨⟨b'', hb'', hbc''⟩, hIrest, hLrest⟩ :=
      ih w1 w' b' hb' (hrest w1 hstep) hrun
    refine ⟨⟨b'', hb'', by rw [hbc'', hbc]⟩, ?_, ?_⟩
    · intro inst hinst
      rcases hIrest inst hinst with hmem | hcol
      · rcases hIstep inst hmem with hmem0 | hcol0
        · exact Or.inl hmem0
        · exact Or.inr hcol0
      · exact Or.inr (by rw [hcol, hbc])
    · intro inst hinst
      rcases hLrest inst hinst with hmem | hcol
      · rcases hLstep inst hmem with hmem0 | hcol0
        · exact Or.inl hmem0
        · exact Or.inr hcol0
      · exact Or.inr (by rw [hcol, hbc])

/-- C6: (run half) along any sequence of Continue/Turn steps — no
FreshStart or BlockedRestart in between — every placed instance and the
final last block carry the color of the block that opened the run,
inherited unchanged; (fresh half) a step whose block comes from the
fresh-start path (stop draw below `stop_probability`, no previous block,
or a blocked candidate) carries the freshly drawn palette color of that
step's own color draw. -/
theorem C6_color_continuity :
    (∀ (w : World) (lb : Block) (ds : List StepDraws) (w' : World),
       w.last_block = some lb → allRunSteps w ds → w.run ds = .ok w' →
       (∃ b', w'.last_block = some b' ∧ b'.color = lb.color) ∧
       (∀ inst ∈ w'.i_pipe_instances,
         inst ∈ w.i_pipe_instances ∨ inst.color = lb.color) ∧
       (∀ inst ∈ w'.l_pipe_instances,
         inst ∈ w.l_pipe_instances ∨ inst.color = lb.color)) ∧
    (∀ (w : World) (d : StepDraws) (w' : World) (b' : Block),
       (d.stop_draw < w.stop_probability ∨ w.last_block = none ∨
        (∃ lb, w.last_block = some lb ∧
          w.is_position_valid (candidate_position lb) = false)) →
       w.add_pipe d = .ok w' → w'.last_block = some b' →
       b'.color = random_color d.color_draw) := by
  constructor
  · intro w lb ds w' hlb hall hrun
    exact run_color ds w w' lb hlb hall hrun
  · intro w d w' b' hfresh h hlast
    obtain ⟨b, hsrc, hlast', -⟩ := add_pipe_ok h
    rw [hlast] at hlast'
    cases hlast'
    rcases hsrc with ⟨-, hrb⟩ | ⟨hc, hnb⟩
    · exact (random_block_ok hrb).2.2.2.2.2.2
    · rcases hfresh with hstop | hnone | ⟨lb, hlb, hinv⟩
      · exact absurd (Or.inl hstop) hc
      · exact absurd (Or.inr hnone) hc
      · obtain ⟨lb', hlb', hcase⟩ := next_block_ok hnb
        rw [hlb] at hlb'
        cases hlb'
        rcases hcase with ⟨-, hrb⟩ | ⟨hvalid, -⟩
        · exact (random_block_ok hrb).2.2.2.2.2.2
        · rw [hvalid] at hinv
          cases hinv

/-- Witness for C6's fresh-start half at a concrete first step. -/
theorem C6_color_continuity_witness :
    ∃ b', c3_world.last_block = some b' ∧ b'.color = random_color 0 := by
  have h : World.new.add_pipe (c3_draws.headD c2_cont_draw) = .ok c3_world := by decide
  refine ⟨_, rfl, ?_⟩
  exact C6_color_continuity.2 World.new (c3_draws.headD c2_cont_draw) c3_world _
    (Or.inr (Or.inl rfl)) h rfl

/-- The straight-pipe rotation as a function of the axis alone (the
source's match groups `Y | _Y`, `X | _X`, `Z | _Z`, i.e. it is keyed by
axis). -/
def iRotOfAxis : Axis3 → Rot
  | .y => .axisAngle .y 0
  | .x => .axisAngle .z (-90)
  | .z => .axisAngle .x 90

/-- C7: the straight-segment orientation is a pure function of the
segment's axis; the canonical `Y` axis (either sign) gets the 0° rotation;
the 6 directions yield exactly 3 distinct rotations; and the concrete
debug placement `add_debug_pipe(I, (1,1,1), +Y, (1,0,0))` on a fresh world
yields exactly one straight-stream entry at position `(1.0,1.0,1.0)` with
the 0° rotation and color `(1,0,0)`, with `(1,1,1)` occupied afterwards. -/
theorem C7_straight_orientation :
    (∀ b : Block, (World.i_instance_at_block b).rotation = iRotOfAxis b.direction.axis) ∧
    iRotOfAxis Axis3.y = Rot.axisAngle Axis3.y 0 ∧
    ((ALL_DIRECTIONS.map fun dir =>
        (World.i_instance_at_block
          { pipe_type := .I, direction := dir, position := (0, 0, 0),
            color := (0, 0, 0) }).rotation).dedup.length = 3) ∧
    (∃ w', World.new.add_debug_pipe .I (1, 1, 1) .Y (1, 0, 0) = some w' ∧
      w'.i_pipe_instances =
        [{ position := (1, 1, 1), rotation := Rot.axisAngle Axis3.y 0,
           color := (1, 0, 0) }] ∧
      (1, 1, 1) ∈ w'.occupied_blocks) := by
  refine ⟨?_, rfl, by decide, ?_⟩
  · rintro ⟨pt, dir, pos, c⟩
    cases dir <;> rfl
  · refine ⟨_, rfl, ?_, ?_⟩
    · show World.i_instance_at_block _ :: _ = _
      decide
    · decide

lemma l_rot_isSome_iff (outgoing incoming : Direction) :
    (l_rot outgoing incoming).isSome ↔ outgoing.axis ≠ incoming.axis := by
  cases outgoing <;> cases incoming <;> simp [l_rot, Direction.axis]

/-- C8: the elbow orientation resolver succeeds exactly on the 24
perpendicular (incoming, outgoing) direction pairs; an incoming direction
equal or opposite to the outgoing one makes it panic — a fatal
contract-violation failure, never a silently defaulted rotation. -/
theorem C8_elbow_contract (w : World) (lb : Block) (b : Block)
    (hlb : w.last_block = some lb) :
    (w.l_instance_at_block b).isSome ↔ b.direction.axis ≠ lb.direction.axis := by
  unfold World.l_instance_at_block
  rw [hlb]
  dsimp only
  rw [Option.isSome_map']
  exact l_rot_isSome_iff b.direction lb.direction

/-- Witness for C8: with previous direction `+X`, outgoing `+Y` resolves
and outgoing `−X` panics. -/
theorem C8_elbow_contract_witness :
    ((c4_world.l_instance_at_block c4_block).isSome ↔
      c4_block.direction.axis ≠ c4_last.direction.axis) ∧
    (c4_world.l_instance_at_block
      { pipe_type := .L, direction := ._X, position := (6, 5, 5),
        color := (1, 0, 0) } = none) :=
  ⟨C8_elbow_contract c4_world c4_last c4_block rfl, by decide⟩

lemma invalid_forces_random {w : World} {d : StepDraws} {lb : Block}
    (hlb : w.last_block = some lb)
    (hinvalid : w.is_position_valid (candidate_position lb) = false) :
    w.next_block d = w.random_block d := by
  unfold World.next_block
  rw [hlb]
  dsimp only
  rw [if_pos (by simp [hinvalid])]

lemma too_big_invalid_x {w : World} {p : Nat × Nat × Nat}
    (h : w.max_x_block < p.1) : w.is_position_valid p = false := by
  unfold World.is_position_valid
  rw [if_pos]
  simp only [Bool.or_eq_true, decide_eq_true_eq, gt_iff_lt]
  exact Or.inl (Or.inl (Or.inl h))

lemma too_big_invalid_y {w : World} {p : Nat × Nat × Nat}
    (h : w.max_y_block < p.2.1) : w.is_position_valid p = false := by
  unfold World.is_position_valid
  rw [if_pos]
  simp only [Bool.or_eq_true, decide_eq_true_eq, gt_iff_lt]
  exact Or.inl (Or.inl (Or.inr h))

lemma too_big_invalid_z {w : World} {p : Nat × Nat × Nat}
    (h : w.max_z_block < p.2.2) : w.is_position_valid p = false := by
  unfold World.is_position_valid
  rw [if_pos]
  simp only [Bool.or_eq_true, decide_eq_true_eq, gt_iff_lt]
  exact Or.inl (Or.inr h)

/-- C9: when the previous block sits at coordinate 0 on some axis and its
direction is the negative direction of that axis, the candidate
computation subtracts 1 from an unsigned 0: under `u32` wrap-around the
coordinate becomes `2^32 − 1`, which fails the validity check whenever the
bound on that axis is below `2^32 − 1`, so `next_block` falls back to the
fresh-start `random_block` path. -/
theorem C9_wraparound_restart (w : World) (d : StepDraws) (lb : Block)
    (hlb : w.last_block = some lb) :
    (lb.direction = ._X → lb.position.1 = 0 → w.max_x_block < U32MOD - 1 →
      candidate_position lb = (U32MOD - 1, lb.position.2.1, lb.position.2.2) ∧
      w.is_position_valid (candidate_position lb) = false ∧
      w.next_block d = w.random_block d) ∧
    (lb.direction = ._Y → lb.position.2.1 = 0 → w.max_y_block < U32MOD - 1 →
      candidate_position lb = (lb.position.1, U32MOD - 1, lb.position.2.2) ∧
      w.is_position_valid (candidate_position lb) = false ∧
      w.next_block d = w.random_block d) ∧
    (lb.direction = ._Z → lb.position.2.2 = 0 → w.max_z_block < U32MOD - 1 →
      candidate_position lb = (lb.position.1, lb.position.2.1, U32MOD - 1) ∧
      w.is_position_valid (candidate_position lb) = false ∧
      w.next_block d = w.random_block d) := by
  refine ⟨?_, ?_, ?_⟩
  · intro hdir hzero hmax
    have hcand : candidate_position lb = (U32MOD - 1, lb.position.2.1, lb.position.2.2) := by
      unfold candidate_position
      rw [hdir]
      dsimp only
      rw [hzero]
      simp [wsub1, U32MOD]
    have hinvalid := too_big_invalid_x (w := w)
      (p := (U32MOD - 1, lb.position.2.1, lb.position.2.2)) (by simpa using hmax)
    rw [← hcand] at hinvalid
    exact ⟨hcand, hinvalid, invalid_forces_random hlb hinvalid⟩
  · intro hdir hzero hmax
    have hcand : candidate_position lb = (lb.position.1, U32MOD - 1, lb.position.2.2) := by
      unfold candidate_position
      rw [hdir]
      dsimp only
      rw [hzero]
      simp [wsub1, U32MOD]
    have hinvalid := too_big_invalid_y (w := w)
      (p := (lb.position.1, U32MOD - 1, lb.position.2.2)) (by simpa using hmax)
    rw [← hcand] at hinvalid
    exact ⟨hcand, hinvalid, invalid_forces_random hlb hinvalid⟩
  · intro hdir hzero hmax
    have hcand : candidate_position lb = (lb.position.1, lb.position.2.1, U32MOD - 1) := by
      unfold candidate_position
      rw [hdir]
      dsimp only
      rw [hzero]
      simp [wsub1, U32MOD]
    have hinvalid := too_big_invalid_z (w := w)
      (p := (lb.position.1, lb.position.2.1, U32MOD - 1)) (by simpa using hmax)
    rw [← hcand] at hinvalid
    exact ⟨hcand, hinvalid, invalid_forces_random hlb hinvalid⟩

def c9_last : Block :=
  { pipe_type := .I, direction := ._X, position := (0, 7, 7), color := (1, 0, 0) }

def c9_world : World := { World.new with last_block := some c9_last }

/-- Witness for C9 on the `−X` axis at coordinate 0. -/
theorem C9_wraparound_restart_witness :
    candidate_position c9_last = (U32MOD - 1, 7, 7) ∧
    c9_world.is_position_valid (candidate_position c9_last) = false ∧
    c9_world.next_block c2_cont_draw = c9_world.random_block c2_cont_draw :=
  (C9_wraparound_restart c9_world c2_cont_draw c9_last rfl).1 rfl rfl (by decide)

/-- C10 counterexample: `add_debug_pipe` does not unconditionally place a
segment for every argument tuple — with pipe type `L` on a fresh world
(no previous block) the elbow resolver's `unwrap` panics and nothing is
appended. -/
theorem C10_counterexample :
    World.new.add_debug_pipe .L (0, 0, 0) .X (1, 0, 0) = none := by decide

/-- C10 (amended): `add_debug_pipe` performs no occupancy or bounds check.
For pipe type `I` it always appends exactly one straight instance and
inserts the given position — even one already occupied or outside the
bounds; for pipe type `L` it does the same whenever the elbow resolver
succeeds (a previous block exists and its direction is perpendicular to
the given one); with no previous block or a non-perpendicular pair the
elbow resolver panics and nothing is placed. -/
theorem C10_debug_no_checks :
    (∀ (w : World) (pos : Nat × Nat × Nat) (dir : Direction) (c : Color),
      w.add_debug_pipe .I pos dir c =
        some { w with
               i_pipe_instances := w.i_pipe_instances ++
                 [World.i_instance_at_block
                   { pipe_type := .I, direction := dir, position := pos, color := c }]
               occupied_blocks := insert pos w.occupied_blocks
               last_block := some { pipe_type := .I, direction := dir,
                                    position := pos, color := c } }) ∧
    (∀ (w : World) (lb : Block) (pos : Nat × Nat × Nat) (dir : Direction) (c : Color),
      w.last_block = some lb → dir.axis ≠ lb.direction.axis →
      ∃ inst, w.add_debug_pipe .L pos dir c =
        some { w with
               l_pipe_instances := w.l_pipe_instances ++ [inst]
               occupied_blocks := insert pos w.occupied_blocks
               last_block := some { pipe_type := .L, direction := dir,
                                    position := pos, color := c } }) := by
  constructor
  · intro w pos dir c
    rfl
  · intro w lb pos dir c hlb hperp
    have hsome : (l_rot dir lb.direction).isSome :=
      (l_rot_isSome_iff dir lb.direction).mpr hperp
    obtain ⟨r, hr⟩ := Option.isSome_iff_exists.mp hsome
    refine ⟨{ position := ((pos.1 : Rat), (pos.2.1 : Rat), (pos.2.2 : Rat)),
              rotation := r, color := c }, ?_⟩
    unfold World.add_debug_pipe
    dsimp only
    unfold World.l_instance_at_block
    rw [hlb]
    dsimp only
    rw [hr]
    rfl

/-- Witness for C10's amended statement: an `L` debug placement succeeds
at an already-occupied, out-of-bounds position when a perpendicular
previous block exists. -/
theorem C10_debug_no_checks_witness :
    ∃ inst, c4_world.add_debug_pipe .L (100, 100, 100) .Y (0, 1, 0) =
      some { c4_world with
             l_pipe_instances := c4_world.l_pipe_instances ++ [inst]
             occupied_blocks := insert (100, 100, 100) c4_world.occupied_blocks
             last_block := some { pipe_type := .L, direction := .Y,
                                  position := (100, 100, 100), color := (0, 1, 0) } } :=
  C10_debug_no_checks.2 c4_world c4_last (100, 100, 100) .Y (0, 1, 0) rfl (by decide)
